import Mathlib

/-!
Shallow embedding of the optimization core of `golden_section.py`
(demand estimation via least squares, golden-section search, demand function).

Conventions of the embedding:
* Python floats are modelled as exact numbers: the demand estimator works over `ℚ`
  (all of its arithmetic is rational), the golden-section search works over `ℝ`
  (its step ratio `phi = (sqrt 5 - 1)/2` is irrational).
* A possibly-missing entry of an input list (Python `NaN`/`None`, removed by
  `DataFrame.dropna`) is modelled as `Option ℚ`; `none` is a missing entry.
* Fallible code returns `Option`: `estimate_demand_parameters` returns `none`
  exactly where the Python function returns `None`.
-/

/-! ## Demand estimator (`estimate_demand_parameters`, lines 32-128) -/

/-- The record returned by `estimate_demand_parameters` on success
(the Python dict keys `a_d`, `b_d`, `r2`, `intercept`; the `model` object
itself carries no further information used downstream). -/
structure DemandParams where
  a_d : ℚ
  b_d : ℚ
  r2 : ℚ
  intercept : ℚ
  deriving DecidableEq

/-- Line 61: `data['rating'] = data['rating'] * 100`.  Scaling a missing entry
leaves it missing (`NaN * 100 = NaN`). -/
def scaledRatings (ratings : List (Option ℚ)) : List (Option ℚ) :=
  ratings.map (Option.map (fun r => r * 100))

/-- Lines 56-63: pair the two columns row by row and drop every row with a
missing value (`pd.DataFrame` + `dropna`). -/
def validRows : List (Option ℚ) → List (Option ℚ) → List (ℚ × ℚ)
  | [], _ => []
  | _, [] => []
  | p :: ps, r :: rs =>
    match p, r with
    | some p, some r => (p, r) :: validRows ps rs
    | _, _ => validRows ps rs

/-- Maximum of a column (`Series.max`): the maximum of a list, with junk value `0` on the
empty list (only applied to non-empty lists). -/
def maxList : List ℚ → ℚ
  | [] => 0
  | x :: xs => xs.foldl max x

/-- Slope of ordinary least squares with intercept (what
`LinearRegression().fit` computes on a single feature):
`(n*Sxy - Sx*Sy) / (n*Sxx - Sx^2)`.  On a singular design
(all prices equal) the library returns a minimum-norm solution; here the
division yields the junk value `0` — no claim depends on that case. -/
def olsSlope (xs ys : List ℚ) : ℚ :=
  let n : ℚ := xs.length
  (n * (List.zipWith (fun x y => x * y) xs ys).sum - xs.sum * ys.sum) /
    (n * (xs.map (fun x => x ^ 2)).sum - xs.sum ^ 2)

/-- Intercept of ordinary least squares with intercept. -/
def olsIntercept (xs ys : List ℚ) : ℚ :=
  (ys.sum - olsSlope xs ys * xs.sum) / (xs.length : ℚ)

/-- Slope of least squares through the origin
(`LinearRegression(fit_intercept=False)`): `Sxy / Sxx`. -/
def olsSlope0 (xs ys : List ℚ) : ℚ :=
  (List.zipWith (fun x y => x * y) xs ys).sum / (xs.map (fun x => x ^ 2)).sum

/-- Lines 78-92: fit with intercept; if the fitted intercept is below `0.05`
in absolute value, switch to the intercept-free fit (whose `intercept_`
attribute is `0.0`).  Returns `(coefficient, intercept)` of the chosen model. -/
def fitChosen (xs ys : List ℚ) : ℚ × ℚ :=
  let i1 := olsIntercept xs ys
  if |i1| < 1 / 20 then (olsSlope0 xs ys, 0) else (olsSlope xs ys, i1)

/-- Fit quality `sklearn.metrics.r2_score`: `1 - SSres/SStot`, with the library's
convention for a zero total sum of squares (`1` if the residuals are also
zero, `0` otherwise). -/
def r2_score (ytrue ypred : List ℚ) : ℚ :=
  let ybar := ytrue.sum / (ytrue.length : ℚ)
  let ssRes := (List.zipWith (fun a b => (a - b) ^ 2) ytrue ypred).sum
  let ssTot := (ytrue.map (fun a => (a - ybar) ^ 2)).sum
  if ssTot = 0 then (if ssRes = 0 then 1 else 0) else 1 - ssRes / ssTot

/-- Line 96: `max(100, int(len(prices) * 0.1))` — the default maximum
theoretical demand.  Python `int` truncates; the operand is non-negative, so
it is the floor. -/
def defaultMtd (n : ℕ) : ℚ :=
  ((max 100 ⌊(n : ℚ) * (1 / 10)⌋ : ℤ) : ℚ)

/-- Lines 69-124 on the cleaned rows: normalize the (scaled) ratings by their
maximum into a demand proportion, regress `1 - proportion` on price with the
intercept-threshold model choice, and assemble the result record.
`a_d` is the (supplied or defaulted) max theoretical demand, and
`b_d` mirrors lines 102-106: `|coef| * a_d` when the coefficient is
negative, `coef * a_d` otherwise. -/
def fitParams (rows : List (ℚ × ℚ)) (a_d : ℚ) : DemandParams :=
  let M := maxList (rows.map Prod.snd)
  let xs := rows.map Prod.fst
  let ys := rows.map (fun q => 1 - q.2 / M)
  let cf := fitChosen xs ys
  let b_d := if cf.1 < 0 then |cf.1| * a_d else cf.1 * a_d
  ⟨a_d, b_d, r2_score ys (xs.map (fun x => cf.1 * x + cf.2)), cf.2⟩

/-- Main estimator `estimate_demand_parameters` (lines 32-128).  The guard
`maxList … = 0` embeds the `except` branch of lines 78-128: for finite
inputs the only way `model.fit` raises is a non-finite regression target,
which arises exactly when the maximum of the cleaned scaled ratings is `0`
(the normalization then divides by zero, a `NaN`/`inf` target on which
`sklearn` raises `ValueError`, caught at line 126 and turned into `None`). -/
def estimate_demand_parameters (prices ratings : List (Option ℚ))
    (mtd : Option ℚ) : Option DemandParams :=
  if prices = [] ∨ ratings = [] then none
  else if prices.length ≠ ratings.length then none
  else if validRows prices (scaledRatings ratings) = [] then none
  else if maxList ((validRows prices (scaledRatings ratings)).map Prod.snd) = 0 then none
  else some (fitParams (validRows prices (scaledRatings ratings))
    (mtd.getD (defaultMtd prices.length)))

/-! ### Helper lemmas about the estimator -/

lemma fitParams_a_d (rows : List (ℚ × ℚ)) (a : ℚ) : (fitParams rows a).a_d = a := rfl

lemma fitParams_b_d_nonneg (rows : List (ℚ × ℚ)) (a : ℚ) (ha : 0 ≤ a) :
    0 ≤ (fitParams rows a).b_d := by
  unfold fitParams
  dsimp only
  split_ifs with h
  · exact mul_nonneg (abs_nonneg _) ha
  · exact mul_nonneg (not_lt.mp h) ha

lemma defaultMtd_pos (n : ℕ) : 0 < defaultMtd n := by
  unfold defaultMtd
  have h : (100 : ℤ) ≤ max 100 ⌊(n : ℚ) * (1 / 10)⌋ := le_max_left _ _
  have : (0 : ℤ) < max 100 ⌊(n : ℚ) * (1 / 10)⌋ := by omega
  exact_mod_cast this

lemma validRows_snd_mem :
    ∀ (ps rs : List (Option ℚ)) (q : ℚ × ℚ), q ∈ validRows ps rs → some q.2 ∈ rs := by
  intro ps
  induction ps with
  | nil => intro rs q hq; simp [validRows] at hq
  | cons p ps ih =>
    intro rs q hq
    cases rs with
    | nil => simp [validRows] at hq
    | cons r rs =>
      rcases p with _ | p <;> rcases r with _ | r <;>
        simp only [validRows, List.mem_cons] at hq ⊢
      · exact Or.inr (ih rs q hq)
      · exact Or.inr (ih rs q hq)
      · exact Or.inr (ih rs q hq)
      · rcases hq with h | h
        · exact Or.inl (by rw [h])
        · exact Or.inr (ih rs q h)

lemma foldl_max_zero : ∀ (xs : List ℚ) (a : ℚ), (∀ x ∈ xs, x = 0) → a = 0 →
    xs.foldl max a = 0 := by
  intro xs
  induction xs with
  | nil => intro a _ ha; simpa using ha
  | cons x xs ih =>
    intro a h ha
    have hx : x = 0 := h x (by simp)
    simp only [List.foldl_cons]
    exact ih (max a x) (fun y hy => h y (by simp [hy])) (by simp [hx, ha])

lemma maxList_eq_zero (l : List ℚ) (h : ∀ x ∈ l, x = 0) : maxList l = 0 := by
  cases l with
  | nil => rfl
  | cons x xs =>
    exact foldl_max_zero xs x (fun y hy => h y (by simp [hy])) (h x (by simp))

lemma estimate_none_iff (prices ratings : List (Option ℚ)) (mtd : Option ℚ) :
    estimate_demand_parameters prices ratings mtd = none ↔
      (prices = [] ∨ ratings = [] ∨ prices.length ≠ ratings.length ∨
        validRows prices (scaledRatings ratings) = [] ∨
        maxList ((validRows prices (scaledRatings ratings)).map Prod.snd) = 0) := by
  unfold estimate_demand_parameters
  split_ifs with h1 h2 h3 h4
  · exact iff_of_true rfl (by tauto)
  · exact iff_of_true rfl (by tauto)
  · exact iff_of_true rfl (by tauto)
  · exact iff_of_true rfl (by tauto)
  · exact iff_of_false (by simp) (by tauto)

/-! ### Claims about the estimator -/

/-- C5 (amended): `estimate_demand_parameters` returns a failure (`none`) exactly
when the prices or ratings sequence is empty, the two sequences differ in length,
no rows remain after dropping missing values, or the maximum of the surviving
scaled ratings is zero (the normalization then divides by zero, the non-finite
regression target makes the fitting step raise, and the exception is caught). -/
theorem c5_failure_characterization (prices ratings : List (Option ℚ)) (mtd : Option ℚ) :
    estimate_demand_parameters prices ratings mtd = none ↔
      (prices = [] ∨ ratings = [] ∨ prices.length ≠ ratings.length ∨
        validRows prices (scaledRatings ratings) = [] ∨
        maxList ((validRows prices (scaledRatings ratings)).map Prod.snd) = 0) :=
  estimate_none_iff prices ratings mtd

/-- C5 (counterexample): on `prices = [1]`, `ratings = [0]` the estimator fails
(`none`) although none of the three situations listed by the claim holds: the
inputs are non-empty, of equal length, and one valid row survives the dropping
of missing values. -/
theorem c5_counterexample :
    estimate_demand_parameters [some 1] [some 0] none = none ∧
      ¬(([some 1] : List (Option ℚ)) = [] ∨ ([some 0] : List (Option ℚ)) = [] ∨
        ([some 1] : List (Option ℚ)).length ≠ ([some 0] : List (Option ℚ)).length ∨
        validRows [some 1] (scaledRatings [some 0]) = []) := by
  constructor
  · norm_num [estimate_demand_parameters, validRows, scaledRatings, maxList]
  · norm_num [validRows, scaledRatings]

/-- C6 (amended): whenever the estimator succeeds with `max_theoretical_demand`
defaulted or supplied positive, the returned parameters satisfy `a_d > 0` and
`b_d ≥ 0` (for every input, including ones engineered to fit a positive slope:
the sign branch multiplies the absolute slope by the positive scale). -/
theorem c6_parameter_invariant (prices ratings : List (Option ℚ)) (mtd : Option ℚ)
    (out : DemandParams)
    (hmtd : mtd = none ∨ ∃ m, mtd = some m ∧ 0 < m)
    (hout : estimate_demand_parameters prices ratings mtd = some out) :
    0 < out.a_d ∧ 0 ≤ out.b_d := by
  unfold estimate_demand_parameters at hout
  split_ifs at hout
  have hinj := Option.some.inj hout
  have ha : 0 < mtd.getD (defaultMtd prices.length) := by
    rcases hmtd with h | ⟨m, hm, hmpos⟩
    · rw [h]; exact defaultMtd_pos _
    · rw [hm]; exact hmpos
  constructor
  · rw [← hinj, fitParams_a_d]; exact ha
  · rw [← hinj]; exact fitParams_b_d_nonneg _ _ (le_of_lt ha)

/-- C6 (witness): concrete instantiation on a dataset whose ratings fall with
price, with the defaulted max theoretical demand. -/
theorem c6_parameter_invariant_witness :
    0 < (⟨100, 50, 1, -1/2⟩ : DemandParams).a_d ∧
      0 ≤ (⟨100, 50, 1, -1/2⟩ : DemandParams).b_d :=
  c6_parameter_invariant [some 1, some 2] [some 2, some 1] none ⟨100, 50, 1, -1/2⟩
    (Or.inl rfl)
    (by norm_num [estimate_demand_parameters, validRows, scaledRatings, maxList, fitParams,
        fitChosen, olsSlope, olsIntercept, olsSlope0, r2_score, defaultMtd, abs_of_pos,
        abs_of_nonneg, List.cons_ne_nil])

/-- C6 (counterexample): with a caller-supplied `max_theoretical_demand = -1`
the estimator succeeds yet returns `a_d = -1 < 0` and `b_d = -1/2 < 0`: the
claim fails for every negative supplied scale. -/
theorem c6_counterexample :
    estimate_demand_parameters [some 1, some 2] [some 1, some 2] (some (-1)) =
      some ⟨-1, -1/2, 1, 1⟩ ∧
      ¬(0 < (⟨-1, -1/2, 1, 1⟩ : DemandParams).a_d ∧
        0 ≤ (⟨-1, -1/2, 1, 1⟩ : DemandParams).b_d) := by
  constructor
  · norm_num [estimate_demand_parameters, validRows, scaledRatings, maxList, fitParams,
      fitChosen, olsSlope, olsIntercept, olsSlope0, r2_score, defaultMtd, abs_of_pos,
      abs_of_nonneg, List.cons_ne_nil]
  · norm_num

/-- C7 (amended): whenever the estimator succeeds with no supplied
`max_theoretical_demand`, the defaulted `a_d` equals
`max(100, ⌊0.1 * sample_count⌋)` where `sample_count` is the length of the raw
prices list — the product is truncated to an integer before the `max`
(Python `int(len(prices) * 0.1)`). -/
theorem c7_default_mtd (prices ratings : List (Option ℚ)) (out : DemandParams)
    (hout : estimate_demand_parameters prices ratings none = some out) :
    out.a_d = ((max 100 ⌊(prices.length : ℚ) * (1 / 10)⌋ : ℤ) : ℚ) := by
  unfold estimate_demand_parameters at hout
  split_ifs at hout
  have hinj := Option.some.inj hout
  rw [← hinj, fitParams_a_d]
  rfl

/-- C7 (witness): concrete two-sample run with the defaulted scale,
`a_d = max(100, ⌊0.2⌋) = 100`. -/
theorem c7_default_mtd_witness :
    (⟨100, 50, 1, 1⟩ : DemandParams).a_d =
      ((max 100 ⌊((([some 1, some 2] : List (Option ℚ)).length : ℚ)) * (1 / 10)⌋ : ℤ) : ℚ) :=
  c7_default_mtd [some 1, some 2] [some 1, some 2] ⟨100, 50, 1, 1⟩
    (by norm_num [estimate_demand_parameters, validRows, scaledRatings, maxList, fitParams,
        fitChosen, olsSlope, olsIntercept, olsSlope0, r2_score, defaultMtd, abs_of_pos,
        abs_of_nonneg, List.cons_ne_nil])

/-- C10: on every non-empty, equal-length input whose ratings are all exactly
`0`, the estimator returns a failure (`none`) rather than a parameter record or
a crash: the maximum scaled rating is `0`, the normalization divides by zero,
the resulting non-finite regression target makes the fitting step raise, and
the exception is caught at the estimator boundary (the `maxList … = 0` guard
of the embedding). -/
theorem c10_zero_ratings (prices ratings : List (Option ℚ)) (mtd : Option ℚ)
    (_hp : prices ≠ []) (_hr : ratings ≠ [])
    (_hlen : prices.length = ratings.length)
    (hzero : ∀ r ∈ ratings, r = some 0) :
    estimate_demand_parameters prices ratings mtd = none := by
  rw [estimate_none_iff]
  by_cases hrows : validRows prices (scaledRatings ratings) = []
  · tauto
  · refine Or.inr (Or.inr (Or.inr (Or.inr ?_)))
    apply maxList_eq_zero
    intro x hx
    rcases List.mem_map.mp hx with ⟨q, hq, hqx⟩
    have hmem : some q.2 ∈ scaledRatings ratings := validRows_snd_mem _ _ q hq
    rcases List.mem_map.mp hmem with ⟨r, hrmem, hrq⟩
    have : r = some 0 := hzero r hrmem
    rw [this] at hrq
    simp only [Option.map_some'] at hrq
    have : q.2 = 0 := by
      have := Option.some.inj hrq
      simp [← this]
    rw [← hqx, this]

/-- C10 (witness): concrete instantiation on `prices = [1]`, `ratings = [0]`. -/
theorem c10_zero_ratings_witness :
    estimate_demand_parameters [some 1] [some 0] none = none :=
  c10_zero_ratings [some 1] [some 0] none (by simp) (by simp) (by simp)
    (by intro r hr; simpa using hr)

/-! ### The ×100 conditioning step (C9) -/

/-- The estimator with the ×100 rating-scaling step removed, following the
spec's description of the remaining pipeline verbatim (normalize by the
maximum observed rating, regress `1 - proportion` on price, same model choice,
defaults and sign handling).  Compared with `estimate_demand_parameters` to
show the conditioning step is semantically neutral. -/
def estimate_demand_parameters_noscale (prices ratings : List (Option ℚ))
    (mtd : Option ℚ) : Option DemandParams :=
  if prices = [] ∨ ratings = [] then none
  else if prices.length ≠ ratings.length then none
  else if validRows prices ratings = [] then none
  else if maxList ((validRows prices ratings).map Prod.snd) = 0 then none
  else some (fitParams (validRows prices ratings)
    (mtd.getD (defaultMtd prices.length)))

lemma scaledRatings_nil : scaledRatings [] = [] := rfl

lemma scaledRatings_cons (r : Option ℚ) (rs : List (Option ℚ)) :
    scaledRatings (r :: rs) = Option.map (fun x => x * 100) r :: scaledRatings rs := rfl

lemma validRows_scaled : ∀ (ps rs : List (Option ℚ)),
    validRows ps (scaledRatings rs) = (validRows ps rs).map (fun q => (q.1, q.2 * 100)) := by
  intro ps
  induction ps with
  | nil => intro rs; simp [validRows]
  | cons p ps ih =>
    intro rs
    cases rs with
    | nil => simp [validRows, scaledRatings_nil]
    | cons r rs =>
      rw [scaledRatings_cons]
      rcases p with _ | p <;> rcases r with _ | r <;>
        simp [validRows, ih rs]

lemma foldl_max_mul100 : ∀ (xs : List ℚ) (a : ℚ),
    (xs.map (fun x => x * 100)).foldl max (a * 100) = xs.foldl max a * 100 := by
  intro xs
  induction xs with
  | nil => intro a; rfl
  | cons x xs ih =>
    intro a
    simp only [List.map_cons, List.foldl_cons]
    rw [← ih (max a x)]
    congr 1
    rcases le_total a x with h | h
    · rw [max_eq_right h, max_eq_right (mul_le_mul_of_nonneg_right h (by norm_num))]
    · rw [max_eq_left h, max_eq_left (mul_le_mul_of_nonneg_right h (by norm_num))]

lemma maxList_mul100 (l : List ℚ) : maxList (l.map (fun x => x * 100)) = maxList l * 100 := by
  cases l with
  | nil => simp [maxList]
  | cons x xs =>
    simp only [List.map_cons, maxList]
    exact foldl_max_mul100 xs x

lemma fitParams_scaled (rows : List (ℚ × ℚ)) (a : ℚ) :
    fitParams (rows.map (fun q => (q.1, q.2 * 100))) a = fitParams rows a := by
  unfold fitParams
  dsimp only
  have hfst : (rows.map (fun q : ℚ × ℚ => (q.1, q.2 * 100))).map Prod.fst
      = rows.map Prod.fst := by
    rw [List.map_map]; rfl
  have hsnd : (rows.map (fun q : ℚ × ℚ => (q.1, q.2 * 100))).map Prod.snd
      = (rows.map Prod.snd).map (fun x => x * 100) := by
    rw [List.map_map, List.map_map]; rfl
  have hM : maxList ((rows.map (fun q : ℚ × ℚ => (q.1, q.2 * 100))).map Prod.snd)
      = maxList (rows.map Prod.snd) * 100 := by
    rw [hsnd, maxList_mul100]
  have hys : (rows.map (fun q : ℚ × ℚ => (q.1, q.2 * 100))).map
        (fun q => 1 - q.2 / maxList ((rows.map (fun q : ℚ × ℚ => (q.1, q.2 * 100))).map Prod.snd))
      = rows.map (fun q => 1 - q.2 / maxList (rows.map Prod.snd)) := by
    rw [hM, List.map_map]
    refine List.map_congr_left ?_
    intro q _
    simp only [Function.comp_apply]
    rcases eq_or_ne (maxList (rows.map Prod.snd)) 0 with h0 | h0
    · rw [h0]; simp
    · rw [mul_div_mul_right _ _ (by norm_num : (100:ℚ) ≠ 0)]
  rw [hfst, hys]

/-- C9: the ×100 rating-scaling step is semantically neutral: on every input
the estimator computes the same result (same failures, same demand
proportions, slope, model choice, `b_d` and R² score) as the same pipeline
with the scaling step removed, because the factor cancels in the division by
the maximum observed scaled rating. -/
theorem c9_scaling_neutral (prices ratings : List (Option ℚ)) (mtd : Option ℚ) :
    estimate_demand_parameters prices ratings mtd =
      estimate_demand_parameters_noscale prices ratings mtd := by
  unfold estimate_demand_parameters estimate_demand_parameters_noscale
  rw [validRows_scaled]
  by_cases h1 : prices = [] ∨ ratings = []
  · rw [if_pos h1, if_pos h1]
  · rw [if_neg h1, if_neg h1]
    by_cases h2 : prices.length ≠ ratings.length
    · rw [if_pos h2, if_pos h2]
    · rw [if_neg h2, if_neg h2]
      by_cases h3 : validRows prices ratings = []
      · rw [if_pos (by simp [h3]), if_pos h3]
      · rw [if_neg (by simp [h3]), if_neg h3]
        have hM : maxList (((validRows prices ratings).map
              (fun q => (q.1, q.2 * 100))).map Prod.snd)
            = maxList ((validRows prices ratings).map Prod.snd) * 100 := by
          rw [List.map_map, ← maxList_mul100, List.map_map]; rfl
        by_cases h4 : maxList ((validRows prices ratings).map Prod.snd) = 0
        · rw [if_pos (by rw [hM, h4]; ring), if_pos h4]
        · rw [if_neg (by rw [hM]; exact mul_ne_zero h4 (by norm_num)), if_neg h4,
            fitParams_scaled]

lemma validRows_cons_some (p r : ℚ) (ps rs : List (Option ℚ)) :
    validRows (some p :: ps) (some r :: rs) = (p, r) :: validRows ps rs := rfl

lemma validRows_replicate_none :
    ∀ (n : ℕ) (rs : List (Option ℚ)), validRows (List.replicate n none) rs = [] := by
  intro n
  induction n with
  | zero => intro rs; simp [validRows]
  | succ n ih =>
    intro rs
    cases rs with
    | nil => simp [validRows]
    | cons r rs => simp [List.replicate, validRows, ih rs]

/-- C7 (counterexample): on a 1001-entry input (two valid samples, the rest
missing) the estimator succeeds and the defaulted `a_d` is
`max(100, int(0.1 * 1001)) = 100`, while the claim's formula
`max(100, 0.1 * 1001) = 100.1` differs: the claim omits the integer
truncation. -/
theorem c7_counterexample :
    estimate_demand_parameters (some 1 :: some 2 :: List.replicate 999 none)
        (some 1 :: some 2 :: List.replicate 999 none) none =
      some ⟨100, 50, 1, 1⟩ ∧
      (⟨100, 50, 1, 1⟩ : DemandParams).a_d ≠
        max 100 ((((some 1 :: some 2 :: List.replicate 999 none : List (Option ℚ))).length : ℚ)
          * (1 / 10)) := by
  have hlen : (some 1 :: some 2 :: List.replicate 999 (none : Option ℚ)).length = 1001 := by
    simp only [List.length_cons, List.length_replicate]
  constructor
  · have hv : validRows (some 1 :: some 2 :: List.replicate 999 (none : Option ℚ))
        (scaledRatings (some 1 :: some 2 :: List.replicate 999 (none : Option ℚ)))
        = [(1, 100), (2, 200)] := by
      rw [validRows_scaled]
      have hu : validRows (some 1 :: some 2 :: List.replicate 999 (none : Option ℚ))
          (some 1 :: some 2 :: List.replicate 999 (none : Option ℚ)) = [(1, 1), (2, 2)] := by
        rw [validRows_cons_some, validRows_cons_some, validRows_replicate_none]
      rw [hu]
      norm_num
    have hd : defaultMtd ((some 1 :: some 2 :: List.replicate 999 (none : Option ℚ)).length)
        = 100 := by
      rw [hlen]
      unfold defaultMtd
      have hf : ⌊((1001 : ℕ) : ℚ) * (1 / 10)⌋ = 100 := by
        rw [Int.floor_eq_iff]; norm_num
      rw [hf]
      norm_num
    unfold estimate_demand_parameters
    rw [hv, hd]
    norm_num [fitParams, fitChosen, olsSlope, olsIntercept, olsSlope0, r2_score, maxList,
      abs_of_pos, abs_of_nonneg, List.cons_ne_nil]
  · rw [hlen]
    have : max (100 : ℚ) (((1001 : ℕ) : ℚ) * (1 / 10)) = 1001 / 10 := by
      rw [max_eq_right] <;> norm_num
    rw [this]
    norm_num

/-! ## Golden-section search (`golden_section_search`, lines 167-211) -/

/-- Line 180: `phi = (np.sqrt(5) - 1) / 2 ≈ 0.618`. -/
noncomputable def phi : ℝ := (Real.sqrt 5 - 1) / 2

/-- The loop state of `golden_section_search`: the variables
`a, b, x1, x2, f1, f2, iteration` of lines 180-205. -/
structure GssState where
  a : ℝ
  b : ℝ
  x1 : ℝ
  x2 : ℝ
  f1 : ℝ
  f2 : ℝ
  iter : ℕ

/-- Lines 181-189: the state before the first loop test — interior points
`x1 = b - phi*(b-a)`, `x2 = a + phi*(b-a)`, both function values evaluated,
iteration count `0`. -/
noncomputable def gssInit (f : ℝ → ℝ) (a b : ℝ) : GssState :=
  ⟨a, b, b - phi * (b - a), a + phi * (b - a),
    f (b - phi * (b - a)), f (a + phi * (b - a)), 0⟩

/-- Lines 193-205: one loop body.  If `f1 > f2` shrink from the right
(`b = x2`, reuse `x1` as the new `x2` and its cached value as `f2`, fresh
evaluation at the new `x1`); otherwise shrink from the left, symmetrically.
Exactly one fresh evaluation of `f` per iteration. -/
noncomputable def gssStep (f : ℝ → ℝ) (s : GssState) : GssState :=
  if s.f1 > s.f2 then
    ⟨s.a, s.x2, s.x2 - phi * (s.x2 - s.a), s.x1,
      f (s.x2 - phi * (s.x2 - s.a)), s.f1, s.iter + 1⟩
  else
    ⟨s.x1, s.b, s.x2, s.x1 + phi * (s.b - s.x1),
      s.f2, f (s.x1 + phi * (s.b - s.x1)), s.iter + 1⟩

/-- Line 192: `while abs(b - a) > tol and iteration < 100`.  The fuel argument
realizes the `iteration < 100` conjunct: the counter starts at `0` and each
pass increments it once, so running the loop with fuel `100` is exactly the
source's hard cap (the Python loop terminates because of this very cap). -/
noncomputable def gssLoop (f : ℝ → ℝ) (tol : ℝ) : ℕ → GssState → GssState
  | 0, s => s
  | n + 1, s => if tol < |s.b - s.a| then gssLoop f tol n (gssStep f s) else s

/-- Lines 167-211: run the loop from the seeded state, then return the
midpoint of the final bracket, the function value there, and the iteration
count.  The Python default tolerance is `1e-3`. -/
noncomputable def golden_section_search (f : ℝ → ℝ) (a b tol : ℝ) : ℝ × ℝ × ℕ :=
  let s := gssLoop f tol 100 (gssInit f a b)
  ((s.a + s.b) / 2, f ((s.a + s.b) / 2), s.iter)

/-! ### Facts about `phi` -/

lemma phi_sq : phi ^ 2 = 1 - phi := by
  have h5 : Real.sqrt 5 ^ 2 = 5 := Real.sq_sqrt (by norm_num)
  unfold phi
  nlinarith [h5]

lemma phi_gt_half : 1 / 2 < phi := by
  have h5 : Real.sqrt 5 ^ 2 = 5 := Real.sq_sqrt (by norm_num)
  have h0 : 0 ≤ Real.sqrt 5 := Real.sqrt_nonneg 5
  unfold phi
  nlinarith [h5, h0]

lemma phi_le : phi ≤ 7 / 10 := by
  have h5 : Real.sqrt 5 ^ 2 = 5 := Real.sq_sqrt (by norm_num)
  have h0 : 0 ≤ Real.sqrt 5 := Real.sqrt_nonneg 5
  unfold phi
  nlinarith [h5, h0, sq_nonneg (Real.sqrt 5 - 12 / 5)]

lemma phi_nonneg : 0 ≤ phi := le_of_lt (lt_trans (by norm_num) phi_gt_half)

lemma phi_lt_one : phi < 1 := lt_of_le_of_lt phi_le (by norm_num)

/-! ### The loop invariant -/

/-- Invariant carried by the golden-section loop: a well-ordered bracket, the
two interior points at their golden positions inside the current bracket, and
the two cached function values correct for the points they are attached to. -/
def gssInv (f : ℝ → ℝ) (s : GssState) : Prop :=
  s.a ≤ s.b ∧ s.x1 = s.b - phi * (s.b - s.a) ∧ s.x2 = s.a + phi * (s.b - s.a) ∧
    s.f1 = f s.x1 ∧ s.f2 = f s.x2

lemma gssInv_init (f : ℝ → ℝ) (a b : ℝ) (h : a ≤ b) : gssInv f (gssInit f a b) :=
  ⟨h, rfl, rfl, rfl, rfl⟩

lemma gssInv_step (f : ℝ → ℝ) (s : GssState) (hs : gssInv f s) : gssInv f (gssStep f s) := by
  obtain ⟨hab, hx1, hx2, hf1, hf2⟩ := hs
  have hw : 0 ≤ s.b - s.a := sub_nonneg.mpr hab
  have hphi : 0 ≤ phi * (s.b - s.a) := mul_nonneg phi_nonneg hw
  unfold gssStep
  split_ifs with h
  · refine ⟨?_, rfl, ?_, rfl, ?_⟩
    · dsimp only; rw [hx2]; linarith
    · dsimp only; linear_combination hx1 - phi * hx2 + (s.a - s.b) * phi_sq
    · dsimp only; rw [hf1]
  · refine ⟨?_, ?_, rfl, ?_, rfl⟩
    · dsimp only; rw [hx1]; linarith
    · dsimp only; linear_combination -phi * hx1 + hx2 + (s.b - s.a) * phi_sq
    · dsimp only; rw [hf2]

lemma gssInv_order (f : ℝ → ℝ) (s : GssState) (hs : gssInv f s) :
    s.a ≤ s.x1 ∧ s.x1 ≤ s.x2 ∧ s.x2 ≤ s.b := by
  obtain ⟨hab, hx1, hx2, -, -⟩ := hs
  have hw : 0 ≤ s.b - s.a := sub_nonneg.mpr hab
  have h1 := phi_gt_half
  have h2 := phi_lt_one
  refine ⟨?_, ?_, ?_⟩
  · rw [hx1]; nlinarith [mul_nonneg (by linarith : (0:ℝ) ≤ 1 - phi) hw]
  · rw [hx1, hx2]; nlinarith [mul_nonneg (by linarith : (0:ℝ) ≤ 2 * phi - 1) hw]
  · rw [hx2]; nlinarith [mul_nonneg (by linarith : (0:ℝ) ≤ 1 - phi) hw]

lemma gssStep_width (f : ℝ → ℝ) (s : GssState) (hs : gssInv f s) :
    (gssStep f s).b - (gssStep f s).a = phi * (s.b - s.a) := by
  obtain ⟨hab, hx1, hx2, -, -⟩ := hs
  unfold gssStep
  split_ifs with h
  · dsimp only; rw [hx2]; ring
  · dsimp only; rw [hx1]; ring

lemma gssStep_iter (f : ℝ → ℝ) (s : GssState) : (gssStep f s).iter = s.iter + 1 := by
  unfold gssStep
  split_ifs <;> rfl

lemma gssLoop_iter_le (f : ℝ → ℝ) (tol : ℝ) :
    ∀ (n : ℕ) (s : GssState), (gssLoop f tol n s).iter ≤ s.iter + n := by
  intro n
  induction n with
  | zero => intro s; exact Nat.le_add_right _ _
  | succ n ih =>
    intro s
    unfold gssLoop
    split_ifs with h
    · have := ih (gssStep f s)
      rw [gssStep_iter] at this
      omega
    · omega

lemma gssLoop_of_not_gt (f : ℝ → ℝ) (tol : ℝ) (n : ℕ) (s : GssState)
    (h : ¬ tol < |s.b - s.a|) : gssLoop f tol n s = s := by
  cases n with
  | zero => rfl
  | succ n => unfold gssLoop; rw [if_neg h]

/-! ### Claims about the optimizer -/

/-- C2: for every function, every bracket `a ≤ b` and every positive
tolerance, `golden_section_search` terminates (it is a total function whose
loop fuel is the source's own `iteration < 100` cap) and the iteration count
it returns never exceeds `100` — in particular for tolerance `1e-9` on a
bracket of width `1e6`. -/
theorem c2_iteration_cap (f : ℝ → ℝ) (a b tol : ℝ) (_h1 : a ≤ b) (_h2 : 0 < tol) :
    (golden_section_search f a b tol).2.2 ≤ 100 := by
  have h := gssLoop_iter_le f tol 100 (gssInit f a b)
  simpa [golden_section_search, gssInit] using h

/-- C2 (witness): tolerance `1e-9`, bracket `[0, 1e6]`. -/
theorem c2_iteration_cap_witness :
    (golden_section_search (fun x => x) 0 1000000 (1 / 1000000000)).2.2 ≤ 100 :=
  c2_iteration_cap (fun x => x) 0 1000000 (1 / 1000000000) (by norm_num) (by norm_num)

/-- C3: on a degenerate bracket `low = high = p` (any `p`, in particular
`p = 7`) and the default tolerance `1e-3`, the search terminates immediately:
the loop test fails at once, so it returns `optimal_x = p`, the value `f p`,
and iteration count `0`. -/
theorem c3_degenerate_bracket (f : ℝ → ℝ) (p : ℝ) :
    golden_section_search f p p (1 / 1000) = (p, f p, 0) := by
  unfold golden_section_search
  have hstop : ¬ (1 : ℝ) / 1000 < |(gssInit f p p).b - (gssInit f p p).a| := by
    unfold gssInit
    dsimp only
    rw [sub_self, abs_zero]
    norm_num
  rw [gssLoop_of_not_gt f (1 / 1000) 100 (gssInit f p p) hstop]
  unfold gssInit
  dsimp only
  have hmid : (p + p) / 2 = p := by ring
  rw [hmid]

/-- C4: starting from any bracket `a ≤ b`, at the start of every iteration
(i.e. after any number of applications of the loop body to the seeded state —
the states the loop visits are a prefix of this sequence) the bracket is
ordered `a ≤ x1 ≤ x2 ≤ b` and the two cached values `f1`, `f2` are exactly
`f x1`, `f x2`: the value carried over to save one evaluation per iteration
is always the correct value of `f` at the point it is attached to. -/
theorem c4_loop_invariant (f : ℝ → ℝ) (a b : ℝ) (h : a ≤ b) (n : ℕ) :
    ((gssStep f)^[n] (gssInit f a b)).a ≤ ((gssStep f)^[n] (gssInit f a b)).x1 ∧
    ((gssStep f)^[n] (gssInit f a b)).x1 ≤ ((gssStep f)^[n] (gssInit f a b)).x2 ∧
    ((gssStep f)^[n] (gssInit f a b)).x2 ≤ ((gssStep f)^[n] (gssInit f a b)).b ∧
    ((gssStep f)^[n] (gssInit f a b)).f1 = f (((gssStep f)^[n] (gssInit f a b)).x1) ∧
    ((gssStep f)^[n] (gssInit f a b)).f2 = f (((gssStep f)^[n] (gssInit f a b)).x2) := by
  have hinv : gssInv f ((gssStep f)^[n] (gssInit f a b)) := by
    induction n with
    | zero => simpa using gssInv_init f a b h
    | succ n ih => rw [Function.iterate_succ_apply']; exact gssInv_step f _ ih
  obtain ⟨h1, h2, h3⟩ := gssInv_order f _ hinv
  exact ⟨h1, h2, h3, hinv.2.2.2.1, hinv.2.2.2.2⟩

/-- C4 (witness): the invariant after one iteration on the unit bracket for
the identity function. -/
theorem c4_loop_invariant_witness :
    ((gssStep (fun x => x))^[1] (gssInit (fun x => x) 0 1)).a ≤
      ((gssStep (fun x => x))^[1] (gssInit (fun x => x) 0 1)).x1 ∧
    ((gssStep (fun x => x))^[1] (gssInit (fun x => x) 0 1)).x1 ≤
      ((gssStep (fun x => x))^[1] (gssInit (fun x => x) 0 1)).x2 ∧
    ((gssStep (fun x => x))^[1] (gssInit (fun x => x) 0 1)).x2 ≤
      ((gssStep (fun x => x))^[1] (gssInit (fun x => x) 0 1)).b ∧
    ((gssStep (fun x => x))^[1] (gssInit (fun x => x) 0 1)).f1 =
      (fun x => x) (((gssStep (fun x => x))^[1] (gssInit (fun x => x) 0 1)).x1) ∧
    ((gssStep (fun x => x))^[1] (gssInit (fun x => x) 0 1)).f2 =
      (fun x => x) (((gssStep (fun x => x))^[1] (gssInit (fun x => x) 0 1)).x2) :=
  c4_loop_invariant (fun x => x) 0 1 (by norm_num) 1

/-! ### C1: correctness on the concave quadratic -/

/-- The known concave quadratic of the spec: `f(x) = -(x-5)^2 + 10`. -/
def fq : ℝ → ℝ := fun x => -(x - 5) ^ 2 + 10

/-- The loop invariant strengthened for `fq`: the maximizer `5` stays inside
the bracket. -/
def gssInv5 (s : GssState) : Prop := gssInv fq s ∧ s.a ≤ 5 ∧ 5 ≤ s.b

lemma gssInv5_step (s : GssState) (hs : gssInv5 s) : gssInv5 (gssStep fq s) := by
  obtain ⟨hinv, ha5, h5b⟩ := hs
  obtain ⟨hax1, hx12, hx2b⟩ := gssInv_order fq s hinv
  have hinv' : gssInv fq (gssStep fq s) := gssInv_step fq s hinv
  obtain ⟨hab, hx1, hx2, hf1, hf2⟩ := hinv
  refine ⟨hinv', ?_⟩
  unfold gssStep
  split_ifs with h
  · dsimp only
    refine ⟨ha5, ?_⟩
    by_contra hlt
    push_neg at hlt
    rw [hf1, hf2] at h
    unfold fq at h
    nlinarith [mul_nonneg (sub_nonneg.mpr hx12)
      (by linarith : (0:ℝ) ≤ 10 - s.x1 - s.x2)]
  · dsimp only
    refine ⟨?_, h5b⟩
    by_contra hlt
    push_neg at hlt
    rw [hf1, hf2] at h
    push_neg at h
    unfold fq at h
    have hba : 0 < s.b - s.a := by linarith
    have hx1x2 : s.x1 < s.x2 := by
      rw [hx1, hx2]
      nlinarith [mul_pos (by linarith [phi_gt_half] : (0:ℝ) < 2 * phi - 1) hba]
    nlinarith [mul_pos (sub_pos.mpr hx1x2) (by linarith : (0:ℝ) < s.x1 + s.x2 - 10)]

lemma gssLoop_inv5 (tol : ℝ) : ∀ (n : ℕ) (s : GssState), gssInv5 s →
    gssInv5 (gssLoop fq tol n s) ∧
      ((gssLoop fq tol n s).b - (gssLoop fq tol n s).a ≤ tol ∨
        (gssLoop fq tol n s).b - (gssLoop fq tol n s).a = phi ^ n * (s.b - s.a)) := by
  intro n
  induction n with
  | zero => intro s hs; exact ⟨hs, Or.inr (by rw [pow_zero, one_mul]; rfl)⟩
  | succ n ih =>
    intro s hs
    unfold gssLoop
    split_ifs with h
    · obtain ⟨hful, hw⟩ := ih (gssStep fq s) (gssInv5_step s hs)
      refine ⟨hful, ?_⟩
      rcases hw with hw | hw
      · exact Or.inl hw
      · refine Or.inr ?_
        rw [hw, gssStep_width fq s hs.1]
        ring
    · refine ⟨hs, Or.inl ?_⟩
      have habs : |s.b - s.a| = s.b - s.a := abs_of_nonneg (sub_nonneg.mpr hs.1.1)
      have := not_lt.mp h
      linarith [habs.symm.trans_le this]

/-- C1: on the concave quadratic `fq(x) = -(x-5)^2 + 10` over the bracket
`[0, 10]` with the default tolerance `1e-3`, `golden_section_search` returns
an `optimal_x` within the tolerance of `5`, and an `optimal_value` that is by
construction `fq` at the returned point and is within `1e-6` of the true
maximum `10`. -/
theorem c1_golden_section_quadratic :
    |(golden_section_search fq 0 10 (1 / 1000)).1 - 5| ≤ 1 / 1000 ∧
    (golden_section_search fq 0 10 (1 / 1000)).2.1 =
      fq ((golden_section_search fq 0 10 (1 / 1000)).1) ∧
    |(golden_section_search fq 0 10 (1 / 1000)).2.1 - 10| ≤ 1 / 1000000 := by
  have hinit : gssInv5 (gssInit fq 0 10) :=
    ⟨gssInv_init fq 0 10 (by norm_num), by norm_num [gssInit], by norm_num [gssInit]⟩
  obtain ⟨⟨hinv, ha5, h5b⟩, hw⟩ := gssLoop_inv5 (1 / 1000) 100 (gssInit fq 0 10) hinit
  have hwle : (gssLoop fq (1 / 1000) 100 (gssInit fq 0 10)).b -
      (gssLoop fq (1 / 1000) 100 (gssInit fq 0 10)).a ≤ 1 / 1000 := by
    rcases hw with hw | hw
    · exact hw
    · rw [hw]
      have h1 : (gssInit fq 0 10).b - (gssInit fq 0 10).a = 10 := by
        norm_num [gssInit]
      rw [h1]
      have h2 : phi ^ 100 ≤ (7 / 10 : ℝ) ^ 100 := pow_le_pow_left₀ phi_nonneg phi_le 100
      have h3 : ((7 / 10 : ℝ)) ^ 100 * 10 ≤ 1 / 1000 := by norm_num
      nlinarith [h2]
  have hx : (golden_section_search fq 0 10 (1 / 1000)).1 =
      ((gssLoop fq (1 / 1000) 100 (gssInit fq 0 10)).a +
        (gssLoop fq (1 / 1000) 100 (gssInit fq 0 10)).b) / 2 := rfl
  have hmid : |((gssLoop fq (1 / 1000) 100 (gssInit fq 0 10)).a +
      (gssLoop fq (1 / 1000) 100 (gssInit fq 0 10)).b) / 2 - 5| ≤ 1 / 2000 := by
    rw [abs_le]
    constructor
    · linarith
    · linarith
  refine ⟨?_, rfl, ?_⟩
  · rw [hx]
    exact le_trans hmid (by norm_num)
  · have hval : (golden_section_search fq 0 10 (1 / 1000)).2.1 =
        fq (((gssLoop fq (1 / 1000) 100 (gssInit fq 0 10)).a +
          (gssLoop fq (1 / 1000) 100 (gssInit fq 0 10)).b) / 2) := rfl
    have hfq : ∀ x : ℝ, |x - 5| ≤ 1 / 2000 → |fq x - 10| ≤ 1 / 1000000 := by
      intro x hx5
      obtain ⟨h1, h2⟩ := abs_le.mp hx5
      have hdiff : fq x - 10 = -(x - 5) ^ 2 := by unfold fq; ring
      rw [hdiff, abs_neg, abs_of_nonneg (sq_nonneg _)]
      nlinarith
    rw [hval]
    exact hfq _ hmid

/-! ## Demand and profit functions (`talep_fonksiyonu`, `kar_fonksiyonu`) -/

/-- Demand function `talep_fonksiyonu` (lines 134-148): demand at price `f` is
`max(0, a_d - b_d * f)` — floored at zero. -/
noncomputable def talep_fonksiyonu (f a_d b_d : ℝ) : ℝ := max 0 (a_d - b_d * f)

/-- Profit function `kar_fonksiyonu` (lines 150-165): profit at price `f` with unit cost `C`,
the function the orchestrator hands to the optimizer. -/
noncomputable def kar_fonksiyonu (f C a_d b_d : ℝ) : ℝ :=
  (f - C) * talep_fonksiyonu f a_d b_d

/-- C8: the demand function used by the orchestrator equals
`max(0, a_d - b_d * price)`: it is never negative, and for every price
strictly beyond `a_d / b_d` (when `b_d > 0`) it is exactly `0`. -/
theorem c8_demand_floor (price a_d b_d : ℝ) :
    0 ≤ talep_fonksiyonu price a_d b_d ∧
      (0 < b_d → a_d / b_d < price → talep_fonksiyonu price a_d b_d = 0) := by
  constructor
  · exact le_max_left 0 _
  · intro hb hp
    unfold talep_fonksiyonu
    rw [div_lt_iff₀ hb] at hp
    rw [max_eq_left]
    nlinarith
/-- C8 (witness): `price = 3`, `a_d = 1`, `b_d = 1` — past the zero-crossing
`a_d / b_d = 1`, demand is exactly `0` and non-negative. -/
theorem c8_demand_floor_witness :
    0 ≤ talep_fonksiyonu 3 1 1 ∧ talep_fonksiyonu 3 1 1 = 0 :=
  ⟨(c8_demand_floor 3 1 1).1, (c8_demand_floor 3 1 1).2 (by norm_num) (by norm_num)⟩
